import Mathlib

/-!
Verification development for the voice-report generator of agent-auditor
(src/voice_inference.py).  The Python source is shallowly embedded below:
pure helpers become Lean functions, the TTS fallback loop becomes an
explicit recursive function over an environment describing each backend's
behaviour, and file writes are represented by the value that would be
written.
-/

/-! ## Character-level utilities (Python `\s`, `str.strip`, `str.lower`) -/

/-- ASCII whitespace, the characters matched by the regex class `\s`
and stripped by `str.strip` for the ASCII inputs considered here. -/
def pyWs (c : Char) : Bool :=
  c = ' ' || c = '\x09' || c = '\x0a' || c = '\x0d' || c = '\x0b' || c = '\x0c'

/-- ASCII lower-casing of a single character, as `str.lower` acts on ASCII. -/
def asciiLowerC (c : Char) : Char :=
  if 'A' ≤ c ∧ c ≤ 'Z' then Char.ofNat (c.toNat + 32) else c

/-- ASCII lower-casing of a character list. -/
def asciiLowerL (l : List Char) : List Char := l.map asciiLowerC

/-- Remove trailing ASCII whitespace. -/
def rtrimWs : List Char → List Char
  | [] => []
  | c :: cs =>
    match rtrimWs cs with
    | [] => if pyWs c then [] else [c]
    | r => c :: r

/-- Python `str.strip`: drop leading and trailing whitespace. -/
def pyStripL (l : List Char) : List Char := rtrimWs (l.dropWhile pyWs)

/-- Match a literal character list at the front of the input, returning the rest. -/
def litM : List Char → List Char → Option (List Char)
  | [], rest => some rest
  | _ :: _, [] => none
  | l :: ls, c :: cs => if c = l then litM ls cs else none

/-- The fixed tail of the occurrence-count annotation. -/
def annotTail : List Char := " instances detected)".data

/-- Attempt to match the regex `\s*\(\d+ instances detected\)` at the start of
the input (the pattern used by `re.sub` in `_enhance_report_with_deeper_analysis`);
returns the remainder after the match. -/
def matchAnnotAt (s : List Char) : Option (List Char) :=
  match s.dropWhile pyWs with
  | c :: rest =>
    if c = '(' then
      if (rest.takeWhile Char.isDigit).isEmpty then none
      else litM annotTail (rest.dropWhile Char.isDigit)
    else none
  | [] => none

/-- Model of `re.sub(r'\s*\(\d+ instances detected\)', '', s)`: scan left to
right, removing every (leftmost, non-overlapping) match of the pattern.
Structural recursion on a fuel that is always sufficient when it is at least
the length of the input (each step strictly shortens the input). -/
def stripAnnotsF : Nat → List Char → List Char
  | _, [] => []
  | 0, l => l
  | f + 1, c :: cs =>
    match matchAnnotAt (c :: cs) with
    | some rest => stripAnnotsF f rest
    | none => c :: stripAnnotsF f cs

/-- `re.sub(r'\s*\(\d+ instances detected\)', '', s)` with the canonical fuel. -/
def stripAnnots (s : List Char) : List Char := stripAnnotsF s.length s

/-- Boolean prefix test on character lists. -/
def isPrefixB : List Char → List Char → Bool
  | [], _ => true
  | _ :: _, [] => false
  | a :: as, b :: bs => if a = b then isPrefixB as bs else false

/-- Boolean contiguous-substring test, mirroring Python's `in` on strings. -/
def isInfixB (n : List Char) : List Char → Bool
  | [] => n.isEmpty
  | c :: cs => isPrefixB n (c :: cs) || isInfixB n cs

/-! ## The recommendation-explanation table (`RECOMMENDATION_EXPLANATIONS`) -/

/-- The data-driven explanation table, in the source's insertion order. -/
def RECOMMENDATION_EXPLANATIONS : List (String × String) :=
  [("reasoning path validation", "This is critical because reasoning path hijacking can lead to manipulated decision-making processes. Aegong recommends implementing validation checkpoints and monitoring for unexpected reasoning patterns."),
   ("objective integrity", "Objective corruption can cause the agent to pursue harmful goals. Implement goal consistency verification and regular objective validation checks."),
   ("memory integrity", "Memory poisoning allows persistent manipulation of the agent\x27s knowledge base. Deploy cryptographic verification of memory states and implement read-only reference knowledge."),
   ("action authorization", "Unauthorized actions bypass security controls. Implement fine-grained permission systems and action verification protocols."),
   ("resource monitoring", "Resource manipulation can lead to denial of service or resource theft. Deploy adaptive resource limits and usage anomaly detection."),
   ("identity verification", "Identity spoofing allows impersonation attacks. Implement multi-factor identity verification and credential rotation."),
   ("trust validation", "Trust manipulation exploits human-agent interactions. Deploy trust boundary enforcement and interaction verification protocols."),
   ("distributed oversight", "Oversight saturation overwhelms monitoring systems. Implement hierarchical monitoring with priority-based alert systems."),
   ("immutable audit", "Governance evasion bypasses security policies. Deploy blockchain-based audit trails and policy enforcement verification."),
   ("module validation", "Shield module failures indicate potential security gaps. Review and strengthen the affected security modules.")]

def DEFAULT_EXPLANATION : String :=
  "This requires immediate attention to maintain agent security integrity."

/-- The `for keyword, detail in RECOMMENDATION_EXPLANATIONS.items(): if keyword
in core_rec: ... break` loop: first keyword (in table order) that is a
substring of the normalized text wins; otherwise the default explanation. -/
def findExplanation : List (String × String) → String → String
  | [], _ => DEFAULT_EXPLANATION
  | (kw, detail) :: rest, core =>
    if isInfixB kw.data core.data then detail else findExplanation rest core

/-- `core_rec = re.sub(r'\s*\(\d+ instances detected\)', '', recommendation).strip().lower()` -/
def normalizeRec (s : String) : String :=
  String.mk (asciiLowerL (pyStripL (stripAnnots s.data)))

/-- The explanation selected for one recommendation string (the body of the
loop in `_enhance_report_with_deeper_analysis`). -/
def explain (s : String) : String :=
  findExplanation RECOMMENDATION_EXPLANATIONS (normalizeRec s)

/-! Spec-side variant for the refinement comparison in C4. -/

/-- Modelled from the spec's words for §4.1 (refinement comparison only):
strip a TRAILING occurrence-count annotation — whitespace + "(" + digits +
" instances detected)" + optional whitespace at the very end — if present.
Returns the prefix before the trailing annotation, or `none` when the string
has no trailing annotation. -/
def splitTrailingAnnot : List Char → Option (List Char)
  | [] => none
  | c :: cs =>
    match matchAnnotAt (c :: cs) with
    | some rest =>
      if rest.dropWhile pyWs = [] then some []
      else (splitTrailingAnnot cs).map (c :: ·)
    | none => (splitTrailingAnnot cs).map (c :: ·)

/-- Modelled from the spec's words for §4.1 (refinement comparison only):
normalization that strips only a trailing annotation, then lower-cases. -/
def specNormalize (s : String) : String :=
  String.mk (asciiLowerL ((splitTrailingAnnot s.data).getD s.data))

/-- Modelled from the spec's words for §4.1 (refinement comparison only):
the explainer as the claim describes it. -/
def specExplain (s : String) : String :=
  findExplanation RECOMMENDATION_EXPLANATIONS (specNormalize s)

/-! ## Persona enhancement (`_enhance_text_with_cerebras`) -/

/-- Mood instruction for the dismissive band (`if not is_valid_agent`). -/
def dismissiveInstruction : String :=
  "Be dismissive and mocking. This isn\x27t even a real agent! Express disbelief that someone would waste AEGONG\x27s time with this. Add sarcastic laughter and condescending remarks."

/-- Mood instruction for the alarmed band (`risk_score > 7.5`). -/
def alarmedInstruction : String :=
  "Be extremely alarmed and indignant. This agent is highly dangerous! Express outrage that such an insecure agent was created. Use stern warnings and dramatic pauses for emphasis."

/-- Mood instruction for the disapproving band (`risk_score > 5`). -/
def disapprovingInstruction : String :=
  "Be judgmental and disapproving. This agent has significant security issues. Express disappointment and use a condescending tone when describing the vulnerabilities."

/-- Mood instruction for the mixed band (`risk_score > 2.5`). -/
def mixedInstruction : String :=
  "Be mildly annoyed but somewhat impressed. The agent has some issues but isn\x27t terrible. Mix criticism with backhanded compliments."

/-- Mood instruction for the reluctantly-impressed band (`else`). -/
def reluctantInstruction : String :=
  "Be reluctantly impressed but still find something to criticize. No agent is perfect, after all. Add subtle jabs even while acknowledging the agent\x27s security."

/-- The mood-selection chain of `_enhance_text_with_cerebras` (lines 247-256):
risk scores are embedded as exact rationals, and the comparisons are the
source's strict `>` comparisons. -/
def mood_instruction (is_valid_agent : Bool) (risk_score : ℚ) : String :=
  if ¬ is_valid_agent then dismissiveInstruction
  else if risk_score > 7.5 then alarmedInstruction
  else if risk_score > 5 then disapprovingInstruction
  else if risk_score > 2.5 then mixedInstruction
  else reluctantInstruction

/-- The audit report JSON with its recognized keys; every field is optional,
absence of a key is `none` (`dict.get` with a default in the source). -/
structure Report where
  agent_name : Option String
  agent_hash : Option String
  risk_score : Option ℚ
  validation_status : Option String
  is_agent : Option Bool
  recommendations : Option (List String)
  aegong_message : Option String
deriving DecidableEq

/-- The data the enhancement prompt embeds: the mood instruction selected from
the report, the report context values, and the original text
(`enhancement_prompt` in the source, represented by its variable parts). -/
structure ChatRequest where
  mood : String
  risk_score : ℚ
  validation_status : String
  is_valid_agent : Bool
  original_text : String
deriving DecidableEq

/-- Build the enhancement request exactly as `_enhance_text_with_cerebras`
extracts its inputs: `report_data.get("risk_score", 0)`,
`report_data.get("validation_status", "unknown")`,
`report_data.get("is_agent", False)`. -/
def buildRequest (text : String) (r : Report) : ChatRequest :=
  { mood := mood_instruction (r.is_agent.getD false) (r.risk_score.getD 0)
    risk_score := r.risk_score.getD 0
    validation_status := r.validation_status.getD "unknown"
    is_valid_agent := r.is_agent.getD false
    original_text := text }

/-- Outcome of the Cerebras chat call: an exception, a response whose
`choices[0].message.content` access fails, or a successful text content. -/
inductive LLMResponse where
  | failure
  | malformed
  | content (s : String)
deriving DecidableEq

/-- `_enhance_text_with_cerebras`: `if not self.cerebras_llm: return text`;
then inside `try`, the chat call followed by `.strip()` on the content; any
exception (network failure, malformed response, timeout) is caught and the
original text returned. -/
def enhance_text (cerebras_llm : Option (ChatRequest → LLMResponse))
    (text : String) (report_data : Report) : String :=
  match cerebras_llm with
  | none => text
  | some chat =>
    match chat (buildRequest text report_data) with
    | .content s => String.mk (pyStripL s.data)
    | .failure => text
    | .malformed => text

/-! ## Message composition (`_enhance_report_with_deeper_analysis`) -/

/-- The fixed closing sentence appended to every voice report. -/
def closingSentence : String :=
  "\x0a\x0aI remain vigilant, protecting the digital realm one audit at a time. This concludes my voice report."

/-- The header sentence introducing the recommendation list. -/
def recHeader : String :=
  "\x0a\x0aI have prepared detailed recommendations to address the security concerns:"

/-- The `for i, recommendation in enumerate(recommendations, 1)` loop body:
append one block per recommendation, numbered from `i`. -/
def recLines : Nat → List String → String
  | _, [] => ""
  | i, rec :: rest =>
    "\x0a\x0a" ++ toString i ++ ". " ++ rec ++ ". " ++ explain rec ++ recLines (i + 1) rest

/-- `_enhance_report_with_deeper_analysis(report, base_message)`: identity
prefix naming `report.get('agent_name', 'Unknown Agent')`, the base message,
an optional recommendation section (only when `report.get("recommendations", [])`
is truthy, i.e. non-empty), and the fixed closing sentence. -/
def enhance_report_with_deeper_analysis (report : Report) (base_message : String) : String :=
  let intro := "Greetings, human. This is Aegong, the Agent Auditor. I have completed my analysis of the agent \x27" ++
    report.agent_name.getD "Unknown Agent" ++ "\x27. " ++ base_message
  let recs := report.recommendations.getD []
  let withRecs := if recs.isEmpty then intro else intro ++ recHeader ++ recLines 1 recs
  withRecs ++ closingSentence

/-! ## Frame assembly (`_save_audio_frames_to_wav`) -/

/-- One synthesized audio frame: sample rate, channel count, and raw payload
bytes (each a value below 256). -/
structure AudioFrame where
  sample_rate : Nat
  num_channels : Nat
  data : List Nat
deriving DecidableEq

/-- `np.frombuffer(audio_data, dtype=np.int16)`: interpret consecutive byte
pairs as little-endian signed 16-bit samples. -/
def bytesToInt16LE : List Nat → List Int
  | lo :: hi :: rest =>
    (let v := lo + 256 * hi
     if v < 32768 then (v : Int) else (v : Int) - 65536) :: bytesToInt16LE rest
  | _ => []

/-- `audio_array.tobytes()`: serialize signed 16-bit samples back to
little-endian byte pairs. -/
def int16ToBytesLE : List Int → List Nat
  | [] => []
  | s :: rest =>
    (s % 65536).toNat % 256 :: (s % 65536).toNat / 256 :: int16ToBytesLE rest

/-- The WAV file produced by the `wave` module: header parameters plus the
raw sample bytes passed to `writeframes`. -/
structure WavFile where
  nchannels : Nat
  sampwidth : Nat
  framerate : Nat
  frames : List Nat
deriving DecidableEq

/-- `_save_audio_frames_to_wav(audio_frames, output_path)`:
on an empty frame list it logs a warning and returns without writing
(`.ok none`); otherwise it takes rate and channel count from the first frame,
joins all payloads in order, reinterprets them as int16 via `np.frombuffer`
(which raises `ValueError` when the byte count is odd), and writes a WAV file
with `sampwidth = 2`.  `.error` models the raised exception; `.ok (some w)`
models the file written at the output path. -/
def save_audio_frames_to_wav (audio_frames : List AudioFrame) :
    Except String (Option WavFile) :=
  match audio_frames with
  | [] => .ok none
  | first :: _ =>
    let audio_data := (audio_frames.map (·.data)).flatten
    if audio_data.length % 2 ≠ 0 then
      .error "buffer size must be a multiple of element size"
    else
      .ok (some { nchannels := first.num_channels
                  sampwidth := 2
                  framerate := first.sample_rate
                  frames := int16ToBytesLE (bytesToInt16LE audio_data) })

/-! ## The TTS provider enumeration and the fallback loop (`generate_voice_report`) -/

/-- The `TTSProvider` enum, in its definition (iteration) order. -/
inductive TTSProvider where
  | openai
  | google
  | azure
  | cartesia
  | livekit
deriving DecidableEq, Repr

/-- `[p for p in TTSProvider]`: the enum members in definition order. -/
def providerOrder : List TTSProvider :=
  [.openai, .google, .azure, .cartesia, .livekit]

/-- Set-membership test used for `tried_providers` (a Python set of enum
members). -/
def elemB (x : TTSProvider) : List TTSProvider → Bool
  | [] => false
  | y :: ys => if y = x then true else elemB x ys

/-- Behaviour of one synthesis call against one provider backend: the
`asyncio.wait_for(collect_audio_frames(), ...)` call either times out, raises
a provider error carrying its detail, or yields a frame list. -/
inductive SynthOutcome where
  | timeout
  | synthError (detail : String)
  | frames (fs : List AudioFrame)

/-- A provider behaviour that fails the attempt outright: a timeout or a
synthesis error (an empty frame list is NOT such a failure — see C1). -/
def hardFail : SynthOutcome → Prop
  | .timeout => True
  | .synthError _ => True
  | .frames _ => False

/-- The environment of one request: what each provider backend does when its
`synthesize` stream is consumed (the orchestrator sends the same text on every
attempt, so behaviour is a function of the backend), plus whether
`OPENAI_API_KEY` is set, which gates fallback re-initialization. -/
structure SynthEnv where
  behavior : TTSProvider → SynthOutcome
  openai_key : Bool

/-- The cause recorded for a failed attempt: timeout, the backend's own error,
or the `ValueError` from `np.frombuffer` on an odd byte count. -/
inductive FailCause where
  | timeout
  | synthError (detail : String)
  | valueError
deriving DecidableEq

/-- Outcome of one attempt as recorded in the attempt log. -/
inductive AttemptOutcome where
  | success
  | failed (c : FailCause)
deriving DecidableEq

/-- One `SynthesisAttempt` record: which backend object was actually invoked
(`self.tts`), what `self.provider` claimed at the time, and the outcome. -/
structure Attempt where
  tts : TTSProvider
  tag : TTSProvider
  outcome : AttemptOutcome
deriving DecidableEq

/-- Result of the fallback loop: success carries the WAV file written
(`none` when the frame list was empty and no file was created); failure
carries the re-raised cause of the last attempt. -/
inductive RunResult where
  | ok (file : Option WavFile)
  | err (c : FailCause)
deriving DecidableEq

/-- One iteration body of the retry loop: synthesize with the current
`self.tts` backend and, on success of frame collection, save the frames
(`_save_audio_frames_to_wav`); any exception becomes a failure cause. -/
def attemptOnce (env : SynthEnv) (tts : TTSProvider) : Except FailCause (Option WavFile) :=
  match env.behavior tts with
  | .timeout => .error .timeout
  | .synthError d => .error (.synthError d)
  | .frames fs =>
    match save_audio_frames_to_wav fs with
    | .error _ => .error .valueError
    | .ok w => .ok w

/-- Fallback selection (lines 408-414): from the providers not yet tried (in
enum order), prefer OpenAI, else take the first; `none` when no provider
remains. -/
def pickFallback (tried : List TTSProvider) : Option TTSProvider :=
  let available := providerOrder.filter (fun p => !(elemB p tried))
  if elemB .openai available then some .openai else available.head?

/-- The `while retry_count <= max_retries` loop of `generate_voice_report`.
`budget` is the number of fallbacks still allowed (`max_retries - retry_count`,
initially 2).  On failure the current cause is re-raised when the budget is
spent (`budget = 0`, i.e. `retry_count > max_retries` after the increment) or
no untried provider remains; otherwise a fallback provider is chosen.
Only an OpenAI fallback with `OPENAI_API_KEY` present re-initializes
`self.tts`; every other path (`"Unsupported fallback provider"`, missing key)
`continue`s with the previous backend instance, updating only
`self.provider`. -/
def runLoop (env : SynthEnv) :
    Nat → TTSProvider → TTSProvider → List TTSProvider → List Attempt →
    RunResult × List Attempt
  | 0, tts, tag, _, log =>
    (match attemptOnce env tts with
     | .ok w => (.ok w, log ++ [Attempt.mk tts tag .success])
     | .error c => (.err c, log ++ [Attempt.mk tts tag (.failed c)]))
  | b + 1, tts, tag, tried, log =>
    (match attemptOnce env tts with
     | .ok w => (.ok w, log ++ [Attempt.mk tts tag .success])
     | .error c =>
       match pickFallback tried with
       | none => (.err c, log ++ [Attempt.mk tts tag (.failed c)])
       | some fb =>
         if fb = TTSProvider.openai ∧ env.openai_key = true then
           runLoop env b .openai fb (fb :: tried) (log ++ [Attempt.mk tts tag (.failed c)])
         else
           runLoop env b tts fb (fb :: tried) (log ++ [Attempt.mk tts tag (.failed c)]))

/-- The fallback orchestrator of `generate_voice_report`: start with the
configured provider, `tried_providers = {provider}`, `max_retries = 2`. -/
def runOrchestrator (env : SynthEnv) (p₀ : TTSProvider) : RunResult × List Attempt :=
  runLoop env 2 p₀ p₀ [p₀] []

/-! ## `generate_voice_report` end to end -/

/-- Errors surfaced by `generate_voice_report` itself: the guard
`RuntimeError("TTS not initialized...")`, the `KeyError` from
`report['agent_hash']`, or the re-raised cause after the retry budget is
spent. -/
inductive GenError where
  | notInitialized
  | keyError
  | lastFailure (c : FailCause)
deriving DecidableEq

/-- `generate_voice_report(report_json_path, output_path)`: the `self.tts`
guard comes first; then the report's message is composed
(`aegong_message` defaulting to `""`), optionally LLM-enhanced; then the
output file name is built from `report['agent_hash'][:8]` (a mandatory key);
then the retry loop runs.  The result carries the audio file name, the
narration text sent to the backends, and the file written (if any), together
with the attempt log; before the first backend call the log is empty. -/
def generate_voice_report (tts : Option TTSProvider)
    (cerebras_llm : Option (ChatRequest → LLMResponse))
    (env : SynthEnv) (report : Report) :
    Except GenError (String × String × Option WavFile) × List Attempt :=
  match tts with
  | none => (.error .notInitialized, [])
  | some p₀ =>
    let main_message := report.aegong_message.getD ""
    let enhanced := enhance_report_with_deeper_analysis report main_message
    let enhanced := match cerebras_llm with
      | some chat => enhance_text (some chat) enhanced report
      | none => enhanced
    match report.agent_hash with
    | none => (.error .keyError, [])
    | some h =>
      let audio_path := "aegong_report_" ++ String.mk (h.data.take 8) ++ ".wav"
      match runOrchestrator env p₀ with
      | (.ok w, log) => (.ok (audio_path, enhanced, w), log)
      | (.err c, log) => (.error (.lastFailure c), log)

set_option maxRecDepth 10000

/-! Unfolding and length lemmas for the annotation-stripping scan. -/

theorem litM_length : ∀ (lit s r : List Char), litM lit s = some r → r.length ≤ s.length := by
  intro lit
  induction lit with
  | nil =>
    intro s r h
    simp [litM] at h
    subst h
    exact le_refl _
  | cons l ls ih =>
    intro s r h
    cases s with
    | nil => simp [litM] at h
    | cons c cs =>
      simp only [litM] at h
      by_cases hc : c = l
      · simp [hc] at h
        have := ih cs r h
        simp
        omega
      · simp [hc] at h

theorem length_dropWhile_le' (p : Char → Bool) (l : List Char) :
    (l.dropWhile p).length ≤ l.length := by
  induction l with
  | nil => simp
  | cons c cs ih =>
    by_cases h : p c
    · simp [List.dropWhile, h]
      omega
    · simp [List.dropWhile, h]

theorem matchAnnotAt_length {s r : List Char} (h : matchAnnotAt s = some r) :
    r.length < s.length := by
  unfold matchAnnotAt at h
  rcases hd : s.dropWhile pyWs with _ | ⟨c, rest⟩ <;> rw [hd] at h
  · simp at h
  · by_cases hc : c = '('
    · simp only [hc, if_true] at h
      by_cases he : (rest.takeWhile Char.isDigit).isEmpty
      · simp [he] at h
      · simp [he] at h
        have h1 := litM_length _ _ _ h
        have h2 := length_dropWhile_le' Char.isDigit rest
        have h3 : (c :: rest).length ≤ s.length := by
          rw [← hd]; exact length_dropWhile_le' pyWs s
        simp at h3
        omega
    · simp [hc] at h

theorem stripAnnotsF_irrel :
    ∀ (f₁ f₂ : Nat) (l : List Char), l.length ≤ f₁ → l.length ≤ f₂ →
      stripAnnotsF f₁ l = stripAnnotsF f₂ l := by
  intro f₁
  induction f₁ with
  | zero =>
    intro f₂ l h1 _
    cases l with
    | nil => cases f₂ <;> rfl
    | cons c cs => simp at h1
  | succ f ih =>
    intro f₂ l h1 h2
    cases l with
    | nil => cases f₂ <;> rfl
    | cons c cs =>
      cases f₂ with
      | zero => simp at h2
      | succ f' =>
        simp only [stripAnnotsF]
        rcases hm : matchAnnotAt (c :: cs) with _ | rest
        · simp only []
          have : cs.length ≤ f := by simp at h1; omega
          have : cs.length ≤ f' := by simp at h2; omega
          rw [ih f' cs (by simp at h1; omega) (by simp at h2; omega)]
        · have hl := matchAnnotAt_length hm
          simp only []
          exact ih f' rest (by simp at h1 hl ⊢; omega) (by simp at h2 hl ⊢; omega)

theorem stripAnnots_nil : stripAnnots [] = [] := rfl

theorem stripAnnots_cons_match {c : Char} {cs rest : List Char}
    (h : matchAnnotAt (c :: cs) = some rest) :
    stripAnnots (c :: cs) = stripAnnots rest := by
  have hl := matchAnnotAt_length h
  show stripAnnotsF (c :: cs).length (c :: cs) = stripAnnotsF rest.length rest
  simp only [List.length_cons, stripAnnotsF, h]
  exact stripAnnotsF_irrel _ _ rest (by simp at hl ⊢; omega) (le_refl _)

theorem stripAnnots_cons_nomatch {c : Char} {cs : List Char}
    (h : matchAnnotAt (c :: cs) = none) :
    stripAnnots (c :: cs) = c :: stripAnnots cs := by
  show stripAnnotsF (c :: cs).length (c :: cs) = c :: stripAnnotsF cs.length cs
  simp only [List.length_cons, stripAnnotsF, h]

/-! ## C5: tone-band selection -/

/-- C5: For every combination of `is_agent` and `risk_score`, the mood chain of
`_enhance_text_with_cerebras` selects exactly one tone band, characterized by
the first matching condition in priority order (dismissive when not an agent;
else alarmed iff `risk_score > 7.5`; disapproving iff `5 < risk_score ≤ 7.5`;
mixed iff `2.5 < risk_score ≤ 5`; reluctantly impressed iff `risk_score ≤ 2.5`),
and the comparisons are strict: `risk_score = 7.5` with a valid agent selects
the disapproving band, not the alarmed one. -/
theorem mood_band_selection :
    (∀ (b : Bool) (r : ℚ),
      (mood_instruction b r = dismissiveInstruction ↔ b = false) ∧
      (mood_instruction b r = alarmedInstruction ↔ b = true ∧ 7.5 < r) ∧
      (mood_instruction b r = disapprovingInstruction ↔ b = true ∧ 5 < r ∧ r ≤ 7.5) ∧
      (mood_instruction b r = mixedInstruction ↔ b = true ∧ 2.5 < r ∧ r ≤ 5) ∧
      (mood_instruction b r = reluctantInstruction ↔ b = true ∧ r ≤ 2.5)) ∧
    mood_instruction true 7.5 = disapprovingInstruction := by
  have dAlarm : dismissiveInstruction ≠ alarmedInstruction := by decide
  have dDisap : dismissiveInstruction ≠ disapprovingInstruction := by decide
  have dMixed : dismissiveInstruction ≠ mixedInstruction := by decide
  have dReluc : dismissiveInstruction ≠ reluctantInstruction := by decide
  have aDisap : alarmedInstruction ≠ disapprovingInstruction := by decide
  have aMixed : alarmedInstruction ≠ mixedInstruction := by decide
  have aReluc : alarmedInstruction ≠ reluctantInstruction := by decide
  have jMixed : disapprovingInstruction ≠ mixedInstruction := by decide
  have jReluc : disapprovingInstruction ≠ reluctantInstruction := by decide
  have mReluc : mixedInstruction ≠ reluctantInstruction := by decide
  constructor
  · intro b r
    cases b with
    | false =>
      have hm : mood_instruction false r = dismissiveInstruction := by
        simp [mood_instruction]
      rw [hm]
      exact ⟨⟨fun _ => rfl, fun _ => rfl⟩,
             ⟨fun h => absurd h dAlarm, fun h => by simp at h⟩,
             ⟨fun h => absurd h dDisap, fun h => by simp at h⟩,
             ⟨fun h => absurd h dMixed, fun h => by simp at h⟩,
             ⟨fun h => absurd h dReluc, fun h => by simp at h⟩⟩
    | true =>
      by_cases h1 : (7.5 : ℚ) < r
      · have hm : mood_instruction true r = alarmedInstruction := by
          simp [mood_instruction, h1]
        rw [hm]
        refine ⟨⟨fun h => absurd h.symm dAlarm, fun h => by simp at h⟩,
               ⟨fun _ => ⟨rfl, h1⟩, fun _ => rfl⟩,
               ⟨fun h => absurd h aDisap, fun h => absurd h.2.2 (by linarith)⟩,
               ⟨fun h => absurd h aMixed, fun h => absurd h.2.2 (by linarith)⟩,
               ⟨fun h => absurd h aReluc, fun h => absurd h.2 (by linarith)⟩⟩
      · by_cases h2 : (5 : ℚ) < r
        · have hm : mood_instruction true r = disapprovingInstruction := by
            simp [mood_instruction, h1, h2]
          rw [hm]
          refine ⟨⟨fun h => absurd h.symm dDisap, fun h => by simp at h⟩,
                 ⟨fun h => absurd h.symm aDisap, fun h => absurd h.2 h1⟩,
                 ⟨fun _ => ⟨rfl, h2, not_lt.mp h1⟩, fun _ => rfl⟩,
                 ⟨fun h => absurd h jMixed, fun h => absurd h.2.2 (by linarith)⟩,
                 ⟨fun h => absurd h jReluc, fun h => absurd h.2 (by linarith)⟩⟩
        · by_cases h3 : (2.5 : ℚ) < r
          · have hm : mood_instruction true r = mixedInstruction := by
              simp [mood_instruction, h1, h2, h3]
            rw [hm]
            refine ⟨⟨fun h => absurd h.symm dMixed, fun h => by simp at h⟩,
                   ⟨fun h => absurd h.symm aMixed, fun h => absurd h.2 h1⟩,
                   ⟨fun h => absurd h.symm jMixed, fun h => absurd h.2.1 h2⟩,
                   ⟨fun _ => ⟨rfl, h3, not_lt.mp h2⟩, fun _ => rfl⟩,
                   ⟨fun h => absurd h mReluc, fun h => absurd h.2 (by linarith)⟩⟩
          · have hm : mood_instruction true r = reluctantInstruction := by
              simp [mood_instruction, h1, h2, h3]
            rw [hm]
            refine ⟨⟨fun h => absurd h.symm dReluc, fun h => by simp at h⟩,
                   ⟨fun h => absurd h.symm aReluc, fun h => absurd h.2 h1⟩,
                   ⟨fun h => absurd h.symm jReluc, fun h => absurd h.2.1 h2⟩,
                   ⟨fun h => absurd h.symm mReluc, fun h => absurd h.2.1 h3⟩,
                   ⟨fun _ => ⟨rfl, not_lt.mp h3⟩, fun _ => rfl⟩⟩
  · simp [mood_instruction]
    norm_num

/-! ## C7: frame assembly writes the exact concatenated payload -/

theorem int16_roundtrip :
    ∀ (l : List Nat), (∀ b ∈ l, b < 256) → l.length % 2 = 0 →
      int16ToBytesLE (bytesToInt16LE l) = l
  | [], _, _ => rfl
  | [x], _, h => by simp at h
  | lo :: hi :: rest, hb, he => by
    have hlo : lo < 256 := hb lo (by simp)
    have hhi : hi < 256 := hb hi (by simp)
    have ih := int16_roundtrip rest (fun b hbm => hb b (by simp [hbm])) (by simp at he; omega)
    simp only [bytesToInt16LE, int16ToBytesLE, ih, List.cons.injEq, and_true]
    constructor <;> split_ifs <;> omega

theorem flatten_even :
    ∀ (L : List (List Nat)), (∀ l ∈ L, l.length % 2 = 0) → L.flatten.length % 2 = 0 := by
  intro L
  induction L with
  | nil => simp
  | cons x xs ih =>
    intro h
    have hx := h x (by simp)
    have hxs := ih (fun l hl => h l (by simp [hl]))
    simp only [List.flatten_cons, List.length_append]
    omega

/-- C7: for every non-empty frame sequence whose payloads are valid byte
sequences of 16-bit samples, `_save_audio_frames_to_wav` writes a WAV file
whose channel count and sample rate come from the first frame, whose sample
width is 2 bytes (signed 16-bit little-endian), and whose sample payload is
byte-exactly the concatenation of all frame payloads in arrival order. -/
theorem assembler_header_and_payload (frames : List AudioFrame) (f : AudioFrame)
    (hhead : frames.head? = some f)
    (hb : ∀ g ∈ frames, ∀ b ∈ g.data, b < 256)
    (he : ∀ g ∈ frames, g.data.length % 2 = 0) :
    save_audio_frames_to_wav frames =
      .ok (some { nchannels := f.num_channels
                  sampwidth := 2
                  framerate := f.sample_rate
                  frames := (frames.map (·.data)).flatten }) := by
  cases frames with
  | nil => simp at hhead
  | cons g rest =>
    have hf : g = f := by simpa using hhead
    subst hf
    have hlen : ((g :: rest).map (·.data)).flatten.length % 2 = 0 := by
      refine flatten_even _ ?_
      intro l hl
      simp only [List.mem_map] at hl
      obtain ⟨a, ha, rfl⟩ := hl
      exact he a ha
    have hbytes : ∀ b ∈ ((g :: rest).map (·.data)).flatten, b < 256 := by
      intro b hbm
      simp only [List.mem_flatten, List.mem_map] at hbm
      obtain ⟨l, ⟨a, ha, rfl⟩, hbl⟩ := hbm
      exact hb a ha b hbl
    simp only [save_audio_frames_to_wav]
    rw [if_neg (by omega)]
    rw [int16_roundtrip _ hbytes hlen]

/-- C7 witness: the spec's concrete test vector — two frames at 24000 Hz mono
with payloads `[1, 2]` and `[3, 4]` produce a WAV with rate 24000, 1 channel,
16-bit samples, and payload `[1, 2, 3, 4]`. -/
theorem assembler_header_and_payload_witness :
    save_audio_frames_to_wav
        [⟨24000, 1, [1, 2]⟩, ⟨24000, 1, [3, 4]⟩] =
      .ok (some { nchannels := 1, sampwidth := 2, framerate := 24000,
                  frames := [1, 2, 3, 4] }) := by
  have := assembler_header_and_payload
    [⟨24000, 1, [1, 2]⟩, ⟨24000, 1, [3, 4]⟩] ⟨24000, 1, [1, 2]⟩
    rfl (by decide) (by decide)
  simpa using this

/-! ## C8: enhancement is best-effort and never raises -/

/-- C8: `_enhance_text_with_cerebras` is a total function of the backend's
behaviour — it always returns a text — and whenever the LLM is not configured
or the chat call does not return usable content (exception, timeout, malformed
response), the returned text is exactly the original input. -/
theorem enhancement_pass_through :
    (∀ (text : String) (r : Report), enhance_text none text r = text) ∧
    (∀ (chat : ChatRequest → LLMResponse) (text : String) (r : Report),
      (∀ s, chat (buildRequest text r) ≠ .content s) →
      enhance_text (some chat) text r = text) := by
  constructor
  · intro text r; rfl
  · intro chat text r h
    have hm : enhance_text (some chat) text r =
        match chat (buildRequest text r) with
        | .content s => String.mk (pyStripL s.data)
        | .failure => text
        | .malformed => text := rfl
    rcases hc : chat (buildRequest text r) with _ | _ | s
    · rw [hm, hc]
    · rw [hm, hc]
    · exact absurd hc (h s)

/-- C8 witness: a backend that always raises leaves the text `"report text"`
unchanged. -/
theorem enhancement_pass_through_witness :
    enhance_text (some (fun _ => .failure)) "report text"
      ⟨none, none, none, none, none, none, none⟩ = "report text" :=
  enhancement_pass_through.2 (fun _ => .failure) "report text"
    ⟨none, none, none, none, none, none, none⟩ (fun s h => by cases h)

/-! ## C10: the TTS-initialization guard -/

/-- C10: every call of `generate_voice_report` made while `self.tts` is unset
fails immediately with the not-initialized error: the result is the error
alone, the attempt log is empty (no backend contacted, no file written), and
the outcome is independent of the report, the enhancement backend, and the
provider environment — so the failure happens before the report is read or any
output is produced. -/
theorem tts_guard_immediate (cerebras_llm : Option (ChatRequest → LLMResponse))
    (env : SynthEnv) (report : Report) :
    generate_voice_report none cerebras_llm env report = (.error .notInitialized, []) := rfl

/-! ## C9: optional report fields — except `agent_hash` -/

/-- C9 counterexample: a report with every recognized key absent makes
`generate_voice_report` fail with the `KeyError` raised by
`report['agent_hash']` — so not every recognized key is optional, contrary to
the claim that absence of any recognized field never throws. -/
theorem missing_agent_hash_keyerror_cex :
    generate_voice_report (some .openai) none
      ⟨fun _ => .timeout, false⟩
      ⟨none, none, none, none, none, none, none⟩ = (.error .keyError, []) := rfl

/-- C9 amended: every recognized key other than `agent_hash` is optional —
whenever `agent_hash` is present, `generate_voice_report` never fails because
of a missing field (the remaining failures can only come from the providers),
for every combination of absent optional fields. -/
theorem fields_optional_except_hash (p₀ : TTSProvider)
    (cerebras_llm : Option (ChatRequest → LLMResponse)) (env : SynthEnv)
    (r : Report) (h : r.agent_hash.isSome) :
    (generate_voice_report (some p₀) cerebras_llm env r).1 ≠ .error .keyError ∧
    (generate_voice_report (some p₀) cerebras_llm env r).1 ≠ .error .notInitialized := by
  rcases hh : r.agent_hash with _ | hash
  · rw [hh] at h; simp at h
  · rcases hr : runOrchestrator env p₀ with ⟨res, log⟩
    cases res with
    | ok w =>
      cases cerebras_llm <;> simp [generate_voice_report, hh, hr]
    | err c =>
      cases cerebras_llm <;> simp [generate_voice_report, hh, hr]

/-- C9 witness: with `agent_hash` present and every other field absent, the
call does not fail with a key error. -/
theorem fields_optional_except_hash_witness :
    (generate_voice_report (some .openai) none ⟨fun _ => .timeout, false⟩
      ⟨none, some "abcdef1234567890", none, none, none, none, none⟩).1 ≠ .error .keyError ∧
    (generate_voice_report (some .openai) none ⟨fun _ => .timeout, false⟩
      ⟨none, some "abcdef1234567890", none, none, none, none, none⟩).1 ≠ .error .notInitialized :=
  fields_optional_except_hash .openai none ⟨fun _ => .timeout, false⟩
    ⟨none, some "abcdef1234567890", none, none, none, none, none⟩ rfl

/-! ## C1: an empty frame sequence is treated as success, not as an error -/

/-- C1 counterexample: on the empty frame list the assembler returns normally
with no file written (no `EmptyAudioError` is raised), and an orchestrator
whose first provider yields zero frames reports success after a single attempt
(no fallback is triggered), with no output file created. -/
theorem empty_frames_no_error_cex :
    save_audio_frames_to_wav [] = Except.ok none ∧
    runOrchestrator ⟨fun _ => .frames [], true⟩ .openai =
      (.ok none, [⟨.openai, .openai, .success⟩]) :=
  ⟨rfl, by decide⟩

/-- C1 amended: for every request whose selected provider yields zero frames,
the assembler writes no file and raises no error, and the orchestrator treats
the empty frame sequence as a successful attempt: it stops after that single
attempt with a success result and no output file — it does not fall back. -/
theorem empty_frames_success (env : SynthEnv) (p₀ : TTSProvider)
    (h : env.behavior p₀ = .frames []) :
    save_audio_frames_to_wav [] = Except.ok none ∧
    runOrchestrator env p₀ = (.ok none, [⟨p₀, p₀, .success⟩]) := by
  refine ⟨rfl, ?_⟩
  simp [runOrchestrator, runLoop, attemptOnce, h, save_audio_frames_to_wav]

/-- C1 witness: a concrete environment where the initial provider (Google)
yields zero frames. -/
theorem empty_frames_success_witness :
    save_audio_frames_to_wav [] = Except.ok none ∧
    runOrchestrator ⟨fun _ => .frames [], false⟩ .google =
      (.ok none, [⟨.google, .google, .success⟩]) :=
  empty_frames_success ⟨fun _ => .frames [], false⟩ .google rfl

/-! ## C2: retry budget and terminal failure -/

theorem attemptOnce_err (env : SynthEnv) (tts : TTSProvider)
    (h : hardFail (env.behavior tts)) :
    ∃ c, attemptOnce env tts = .error c := by
  rcases hb : env.behavior tts with _ | d | fs
  · exact ⟨.timeout, by simp [attemptOnce, hb]⟩
  · exact ⟨.synthError d, by simp [attemptOnce, hb]⟩
  · rw [hb] at h; exact absurd h (by simp [hardFail])

theorem elemB_true_iff (x : TTSProvider) :
    ∀ l : List TTSProvider, elemB x l = true ↔ x ∈ l := by
  intro l
  induction l with
  | nil => simp [elemB]
  | cons y ys ih =>
    by_cases h : y = x
    · subst h; simp [elemB]
    · simp [elemB, h, ih]
      intro hxy
      exact absurd hxy.symm h

theorem three_mem_length {l : List TTSProvider}
    (h1 : TTSProvider.openai ∈ l) (h2 : TTSProvider.google ∈ l)
    (h3 : TTSProvider.azure ∈ l) : 3 ≤ l.length := by
  have hsub : ({TTSProvider.openai, TTSProvider.google, TTSProvider.azure} :
      Finset TTSProvider) ⊆ l.toFinset := by
    intro x hx
    simp only [Finset.mem_insert, Finset.mem_singleton] at hx
    rcases hx with rfl | rfl | rfl <;> simpa [List.mem_toFinset]
  have hcard := Finset.card_le_card hsub
  have hc : ({TTSProvider.openai, TTSProvider.google, TTSProvider.azure} :
      Finset TTSProvider).card = 3 := by decide
  have hlen := l.toFinset_card_le
  omega

theorem pickFallback_isSome {tried : List TTSProvider} (h : tried.length ≤ 2) :
    ∃ fb, pickFallback tried = some fb := by
  have hne : providerOrder.filter (fun p => !(elemB p tried)) ≠ [] := by
    intro hemp
    have hall : ∀ p ∈ providerOrder, elemB p tried = true := by
      intro p hp
      have := List.filter_eq_nil_iff.mp hemp p hp
      simpa using this
    have h1 : TTSProvider.openai ∈ tried :=
      (elemB_true_iff _ _).mp (hall .openai (by simp [providerOrder]))
    have h2 : TTSProvider.google ∈ tried :=
      (elemB_true_iff _ _).mp (hall .google (by simp [providerOrder]))
    have h3 : TTSProvider.azure ∈ tried :=
      (elemB_true_iff _ _).mp (hall .azure (by simp [providerOrder]))
    have := three_mem_length h1 h2 h3
    omega
  unfold pickFallback
  by_cases ho : elemB .openai (providerOrder.filter (fun p => !(elemB p tried))) = true
  · exact ⟨.openai, by simp [ho]⟩
  · rcases hl : (providerOrder.filter (fun p => !(elemB p tried))).head? with _ | fb
    · exact absurd (List.head?_eq_none_iff.mp hl) hne
    · exact ⟨fb, by simp [ho, hl]⟩

theorem getLast?_cons_of_ne_nil {α : Type} (x : α) {l : List α} (h : l ≠ []) :
    (x :: l).getLast? = l.getLast? := by
  cases l with
  | nil => exact absurd rfl h
  | cons y ys => simp [List.getLast?_cons_cons]

theorem runLoop_allfail (env : SynthEnv) (hfail : ∀ p, hardFail (env.behavior p)) :
    ∀ (budget : Nat) (tts tag : TTSProvider) (tried : List TTSProvider)
      (log : List Attempt),
      tried.length + budget ≤ 3 →
      ∃ (c : FailCause) (atts : List Attempt),
        runLoop env budget tts tag tried log = (.err c, log ++ atts) ∧
        atts.length = budget + 1 ∧
        (∀ a ∈ atts, ∃ c', a.outcome = .failed c') ∧
        (∃ a, atts.getLast? = some a ∧ a.outcome = .failed c) := by
  intro budget
  induction budget with
  | zero =>
    intro tts tag tried log _
    obtain ⟨c, hc⟩ := attemptOnce_err env tts (hfail tts)
    refine ⟨c, [⟨tts, tag, .failed c⟩], ?_, rfl, ?_, ?_⟩
    · simp [runLoop, hc]
    · intro a ha
      simp only [List.mem_singleton] at ha
      subst ha
      exact ⟨c, rfl⟩
    · exact ⟨⟨tts, tag, .failed c⟩, rfl, rfl⟩
  | succ b ih =>
    intro tts tag tried log hlen
    obtain ⟨c, hc⟩ := attemptOnce_err env tts (hfail tts)
    obtain ⟨fb, hfb⟩ := pickFallback_isSome (show tried.length ≤ 2 by omega)
    by_cases hcond : fb = TTSProvider.openai ∧ env.openai_key = true
    · obtain ⟨c', atts', hrun, hlen', hfall, hlast⟩ :=
        ih .openai fb (fb :: tried) (log ++ [⟨tts, tag, .failed c⟩]) (by simp; omega)
      have hstep : runLoop env (b + 1) tts tag tried log =
          runLoop env b .openai fb (fb :: tried) (log ++ [⟨tts, tag, .failed c⟩]) := by
        simp [runLoop, hc, hfb, hcond]
      refine ⟨c', ⟨tts, tag, .failed c⟩ :: atts', ?_, by simp [hlen'], ?_, ?_⟩
      · rw [hstep, hrun]
        simp
      · intro a ha
        rcases List.mem_cons.mp ha with rfl | hmem
        · exact ⟨c, rfl⟩
        · exact hfall a hmem
      · rcases hlast with ⟨a, hl, ho⟩
        have hne : atts' ≠ [] := by
          intro hnil
          rw [hnil] at hl
          simp at hl
        exact ⟨a, by rw [getLast?_cons_of_ne_nil _ hne]; exact hl, ho⟩
    · obtain ⟨c', atts', hrun, hlen', hfall, hlast⟩ :=
        ih tts fb (fb :: tried) (log ++ [⟨tts, tag, .failed c⟩]) (by simp; omega)
      have hstep : runLoop env (b + 1) tts tag tried log =
          runLoop env b tts fb (fb :: tried) (log ++ [⟨tts, tag, .failed c⟩]) := by
        simp only [runLoop, hc, hfb]
        rw [if_neg hcond]
      refine ⟨c', ⟨tts, tag, .failed c⟩ :: atts', ?_, by simp [hlen'], ?_, ?_⟩
      · rw [hstep, hrun]
        simp
      · intro a ha
        rcases List.mem_cons.mp ha with rfl | hmem
        · exact ⟨c, rfl⟩
        · exact hfall a hmem
      · rcases hlast with ⟨a, hl, ho⟩
        have hne : atts' ≠ [] := by
          intro hnil
          rw [hnil] at hl
          simp at hl
        exact ⟨a, by rw [getLast?_cons_of_ne_nil _ hne]; exact hl, ho⟩

/-- C2 amended: for every request in which every attempted provider fails with
a timeout or a synthesis error, the orchestrator makes exactly 3 attempts
(the initial attempt plus 2 fallback attempts), never more, every attempt in
the log is a failure, and the terminal failure re-raises the cause of the last
attempt.  (The claim's third failure mode — empty audio — is excluded: the
code treats an empty frame sequence as success, see the counterexample and
C1.) -/
theorem all_hard_fail_three_attempts (env : SynthEnv) (p₀ : TTSProvider)
    (hfail : ∀ p, hardFail (env.behavior p)) :
    ∃ (c : FailCause) (log : List Attempt),
      runOrchestrator env p₀ = (.err c, log) ∧
      log.length = 3 ∧
      (∀ a ∈ log, ∃ c', a.outcome = .failed c') ∧
      (∃ a, log.getLast? = some a ∧ a.outcome = .failed c) := by
  obtain ⟨c, atts, hrun, hlen, hfall, hlast⟩ :=
    runLoop_allfail env hfail 2 p₀ p₀ [p₀] [] (by simp)
  exact ⟨c, atts, by simpa [runOrchestrator] using hrun, hlen, hfall, hlast⟩

/-- C2 witness: in an environment where every provider times out, starting
from Google, the run fails after exactly 3 attempts with the last attempt's
cause. -/
theorem all_hard_fail_three_attempts_witness :
    ∃ (c : FailCause) (log : List Attempt),
      runOrchestrator ⟨fun _ => .timeout, true⟩ .google = (.err c, log) ∧
      log.length = 3 ∧
      (∀ a ∈ log, ∃ c', a.outcome = .failed c') ∧
      (∃ a, log.getLast? = some a ∧ a.outcome = .failed c) :=
  all_hard_fail_three_attempts ⟨fun _ => .timeout, true⟩ .google (fun _ => trivial)

/-- C2 counterexample: a provider that "fails" by producing empty audio does
not lead to 3 attempts and a terminal failure — the orchestrator stops after
one attempt and reports success, contradicting the claim's inclusion of empty
audio among the failure modes. -/
theorem empty_audio_not_failure_cex :
    runOrchestrator
      ⟨fun p => match p with
        | .google => .frames []
        | _ => .synthError "x", true⟩ .google =
      (.ok none, [⟨.google, .google, .success⟩]) := by decide

/-! ## C3: fallback selection and the non-reinitialized backend -/

/-- C3 counterexample: in the claim's scenario — Google (the configured
provider) times out, OpenAI (the preferred fallback) raises a synthesis error,
and Azure (the third untried provider, first in enumeration order) would
succeed — the orchestrator does NOT return the third provider's artifact: the
third attempt re-uses the stale OpenAI backend (only `self.provider` is
updated to Azure; `self.tts` is never re-initialized for a non-OpenAI
fallback), so the request fails after 3 attempts with OpenAI's cause. -/
theorem third_provider_unused_cex :
    runOrchestrator
      ⟨fun p => match p with
        | .google => .timeout
        | .openai => .synthError "quota"
        | .azure => .frames [⟨24000, 1, [1, 2]⟩]
        | _ => .synthError "x", true⟩ .google =
      (.err (.synthError "quota"),
       [⟨.google, .google, .failed .timeout⟩,
        ⟨.openai, .openai, .failed (.synthError "quota")⟩,
        ⟨.openai, .azure, .failed (.synthError "quota")⟩]) := by decide

/-- C3 amended: on each retry the orchestrator picks the next untried provider
tag — the designated default (OpenAI) if untried, else the first untried
provider in enumeration order — but only an OpenAI fallback re-initializes the
backend; for any other pick the previous attempt's backend instance is
re-used.  Hence in the claim's scenario (initial provider times out, OpenAI
raises a synthesis error) the third pick's backend is never invoked: the third
attempt runs against the stale OpenAI instance and the orchestrator fails
after exactly 3 attempts with OpenAI's cause, regardless of how the third
provider would have behaved. -/
theorem fallback_selection_stale_backend (env : SynthEnv) (p₀ : TTSProvider)
    (d : String) (h₀ : p₀ ≠ TTSProvider.openai) (hk : env.openai_key = true)
    (h₁ : env.behavior p₀ = .timeout)
    (h₂ : env.behavior .openai = .synthError d) :
    runOrchestrator env p₀ =
      (.err (.synthError d),
       [⟨p₀, p₀, .failed .timeout⟩,
        ⟨.openai, .openai, .failed (.synthError d)⟩,
        ⟨.openai, (if p₀ = TTSProvider.google then TTSProvider.azure
                   else TTSProvider.google), .failed (.synthError d)⟩]) := by
  cases p₀ with
  | openai => exact absurd rfl h₀
  | google =>
    simp [runOrchestrator, runLoop, attemptOnce, pickFallback, providerOrder,
          elemB, h₁, h₂, hk]
  | azure =>
    simp [runOrchestrator, runLoop, attemptOnce, pickFallback, providerOrder,
          elemB, h₁, h₂, hk]
  | cartesia =>
    simp [runOrchestrator, runLoop, attemptOnce, pickFallback, providerOrder,
          elemB, h₁, h₂, hk]
  | livekit =>
    simp [runOrchestrator, runLoop, attemptOnce, pickFallback, providerOrder,
          elemB, h₁, h₂, hk]

/-- C3 witness: concrete environment exercising the amended statement —
Google times out, OpenAI raises `SynthesisError "boom"`; the attempt log shows
the tags Google, OpenAI, Azure but the backends Google, OpenAI, OpenAI. -/
theorem fallback_selection_stale_backend_witness :
    runOrchestrator
      ⟨fun p => match p with
        | .google => .timeout
        | .openai => .synthError "boom"
        | _ => .frames [], true⟩ .google =
      (.err (.synthError "boom"),
       [⟨.google, .google, .failed .timeout⟩,
        ⟨.openai, .openai, .failed (.synthError "boom")⟩,
        ⟨.openai, .azure, .failed (.synthError "boom")⟩]) :=
  fallback_selection_stale_backend
    ⟨fun p => match p with
      | .google => .timeout
      | .openai => .synthError "boom"
      | _ => .frames [], true⟩ .google "boom" (by decide) rfl rfl rfl

/-! ## C6: structure of the composed narration text -/

theorem recLines_eq_foldr (n : Nat) (l : List String) :
    recLines n l =
      (l.mapIdx (fun i rec =>
        "\x0a\x0a" ++ toString (n + i) ++ ". " ++ rec ++ ". " ++ explain rec)).foldr
        (· ++ ·) "" := by
  induction l generalizing n with
  | nil => simp [recLines]
  | cons a as ih =>
    simp only [recLines, List.mapIdx_cons, List.foldr_cons]
    rw [ih (n + 1)]
    have harg : (fun i rec =>
        "\x0a\x0a" ++ toString (n + (i + 1)) ++ ". " ++ rec ++ ". " ++ explain rec) =
        (fun i rec =>
        "\x0a\x0a" ++ toString (n + 1 + i) ++ ". " ++ rec ++ ". " ++ explain rec) := by
      funext i rec
      rw [show n + (i + 1) = n + 1 + i from by omega]
    rw [← harg]
    simp

/-- C6: the composed narration text equals the identity-framing prefix naming
the report's agent (placeholder `'Unknown Agent'` when absent) followed by the
base message verbatim, then — exactly when `recommendations` is non-empty — the
header sentence plus one block `"{index}. {recommendation}. {explanation}"`
per recommendation, 1-indexed in original list order, and finally the fixed
closing sentence; with empty recommendations no list section appears. -/
theorem message_composition (report : Report) (base_message : String) :
    enhance_report_with_deeper_analysis report base_message =
      "Greetings, human. This is Aegong, the Agent Auditor. I have completed my analysis of the agent \x27" ++
        report.agent_name.getD "Unknown Agent" ++ "\x27. " ++ base_message ++
      (if (report.recommendations.getD []).isEmpty then ""
       else recHeader ++
         (((report.recommendations.getD []).mapIdx (fun i rec =>
             "\x0a\x0a" ++ toString (i + 1) ++ ". " ++ rec ++ ". " ++ explain rec)).foldr
             (· ++ ·) "")) ++
      closingSentence := by
  unfold enhance_report_with_deeper_analysis
  by_cases hrec : (report.recommendations.getD []).isEmpty
  · simp only [hrec, if_true]
    simp
  · simp only [hrec, if_false, Bool.false_eq_true]
    have harg2 : (fun i rec =>
        "\x0a\x0a" ++ toString (1 + i) ++ ". " ++ rec ++ ". " ++ explain rec) =
        (fun i rec =>
        "\x0a\x0a" ++ toString (i + 1) ++ ". " ++ rec ++ ". " ++ explain rec) := by
      funext i rec
      rw [Nat.add_comm 1 i]
    rw [recLines_eq_foldr, harg2]
    simp [String.append_assoc]

/-! ## C4: the explainer strips the annotation anywhere, not only trailing -/

theorem mem_of_mem_dropWhile {p : Char → Bool} {l : List Char} {a : Char}
    (h : a ∈ l.dropWhile p) : a ∈ l := by
  induction l with
  | nil => simp at h
  | cons c cs ih =>
    by_cases hc : p c
    · rw [List.dropWhile_cons_of_pos hc] at h
      exact List.mem_cons_of_mem c (ih h)
    · rw [List.dropWhile_cons_of_neg hc] at h
      exact h

theorem matchAnnotAt_paren {l r : List Char} (h : matchAnnotAt l = some r) :
    '(' ∈ l := by
  unfold matchAnnotAt at h
  rcases hd : l.dropWhile pyWs with _ | ⟨c, rest⟩ <;> rw [hd] at h
  · simp at h
  · by_cases hc : c = '('
    · subst hc
      exact mem_of_mem_dropWhile (by rw [hd]; exact List.mem_cons_self _ _)
    · simp [hc] at h

theorem stripAnnots_no_paren :
    ∀ l : List Char, (∀ c ∈ l, c ≠ '(') → stripAnnots l = l := by
  intro l
  induction l with
  | nil => intro _; rfl
  | cons c cs ih =>
    intro h
    have hm : matchAnnotAt (c :: cs) = none := by
      rcases hmm : matchAnnotAt (c :: cs) with _ | r
      · rfl
      · exact absurd rfl (h '(' (matchAnnotAt_paren hmm))
    rw [stripAnnots_cons_nomatch hm]
    rw [ih (fun x hx => h x (List.mem_cons_of_mem c hx))]

theorem dropWhile_append_all {p : Char → Bool} {l : List Char} (r : List Char)
    (h : ∀ x ∈ l, p x = true) : (l ++ r).dropWhile p = r.dropWhile p := by
  rw [List.dropWhile_append]
  rw [List.dropWhile_eq_nil_iff.mpr (by intro x hx; exact h x hx)]
  rfl

theorem dropWhile_append_stuck {p : Char → Bool} {l : List Char} {d : Char}
    {t : List Char} (r : List Char) (h : l.dropWhile p = d :: t) :
    (l ++ r).dropWhile p = d :: (t ++ r) := by
  rw [List.dropWhile_append, h]
  rfl

theorem takeWhile_all_stop {p : Char → Bool} {l : List Char} {c : Char}
    (r : List Char) (hall : ∀ x ∈ l, p x = true) (hc : p c = false) :
    (l ++ c :: r).takeWhile p = l := by
  induction l with
  | nil => simp [List.takeWhile_cons, hc]
  | cons a as ih =>
    have ha : p a = true := hall a (List.mem_cons_self _ _)
    simp only [List.cons_append, List.takeWhile_cons, ha]
    rw [ih (fun x hx => hall x (List.mem_cons_of_mem a hx))]
    simp

theorem dropWhile_all_stop {p : Char → Bool} {l : List Char} {c : Char}
    (r : List Char) (hall : ∀ x ∈ l, p x = true) (hc : p c = false) :
    (l ++ c :: r).dropWhile p = c :: r := by
  induction l with
  | nil => simp [List.dropWhile_cons, hc]
  | cons a as ih =>
    have ha : p a = true := hall a (List.mem_cons_self _ _)
    simp only [List.cons_append, List.dropWhile_cons, ha, if_true]
    exact ih (fun x hx => hall x (List.mem_cons_of_mem a hx))

theorem litM_self_append : ∀ (l r : List Char), litM l (l ++ r) = some r := by
  intro l
  induction l with
  | nil => intro r; rfl
  | cons c cs ih => intro r; simp [litM, ih]

/-- A whitespace run followed by the full annotation matches, consuming
everything. -/
theorem matchAnnot_ws_annot {w ds : List Char}
    (hw : ∀ x ∈ w, pyWs x = true) (hne : ds ≠ [])
    (hdig : ∀ c ∈ ds, Char.isDigit c = true) :
    matchAnnotAt (w ++ '(' :: (ds ++ annotTail)) = some [] := by
  have ht : (ds ++ annotTail).takeWhile Char.isDigit = ds := by
    have ha : annotTail = ' ' :: " instances detected)".data.tail := rfl
    rw [ha]
    exact takeWhile_all_stop _ hdig (by decide)
  have hd : (ds ++ annotTail).dropWhile Char.isDigit = annotTail := by
    have ha : annotTail = ' ' :: " instances detected)".data.tail := rfl
    rw [ha]
    exact dropWhile_all_stop _ hdig (by decide)
  have hds : ds.isEmpty = false := by simpa using hne
  have hlit : litM annotTail annotTail = some [] := by
    have h0 := litM_self_append annotTail []
    simpa using h0
  have h1 : (w ++ '(' :: (ds ++ annotTail)).dropWhile pyWs = '(' :: (ds ++ annotTail) := by
    rw [dropWhile_append_all _ hw]
    exact List.dropWhile_cons_of_neg (by decide)
  unfold matchAnnotAt
  rw [h1]
  simp [ht, hd, hds, hlit]

/-- If the leading whitespace of `l` is followed by a non-`'('` character,
no match starts at `l`, even with anything appended. -/
theorem matchAnnot_none_stuck {l : List Char} {d : Char} {t : List Char}
    (r : List Char) (hd : l.dropWhile pyWs = d :: t) (hne : d ≠ '(') :
    matchAnnotAt (l ++ r) = none := by
  unfold matchAnnotAt
  rw [dropWhile_append_stuck r hd]
  simp [hne]

theorem rtrim_nil_iff : ∀ l : List Char, rtrimWs l = [] ↔ ∀ x ∈ l, pyWs x = true := by
  intro l
  induction l with
  | nil => simp [rtrimWs]
  | cons c cs ih =>
    constructor
    · intro h
      have hcs : rtrimWs cs = [] := by
        rcases hys : rtrimWs cs with _ | ⟨y, ys⟩
        · rfl
        · simp only [rtrimWs] at h
          rw [hys] at h
          simp at h
      have hc : pyWs c = true := by
        simp only [rtrimWs] at h
        rw [hcs] at h
        by_contra hcc
        simp [hcc] at h
      intro x hx
      rcases List.mem_cons.mp hx with rfl | hmem
      · exact hc
      · exact ih.mp hcs x hmem
    · intro h
      have hcs : rtrimWs cs = [] := ih.mpr (fun x hx => h x (List.mem_cons_of_mem c hx))
      simp only [rtrimWs]
      rw [hcs]
      simp [h c (List.mem_cons_self c cs)]

theorem rtrim_cons_not_all {c : Char} {cs : List Char}
    (h : ¬ ∀ x ∈ c :: cs, pyWs x = true) :
    rtrimWs (c :: cs) = c :: rtrimWs cs := by
  rcases hr : rtrimWs cs with _ | ⟨y, ys⟩
  · have hcs : ∀ x ∈ cs, pyWs x = true := (rtrim_nil_iff cs).mp hr
    have hc : ¬ pyWs c = true := by
      intro hc
      exact h (fun x hx => by
        rcases List.mem_cons.mp hx with rfl | hmem
        · exact hc
        · exact hcs x hmem)
    simp only [rtrimWs]
    rw [hr]
    simp [hc]
  · simp only [rtrimWs]
    rw [hr]

theorem stripAnnots_base_annot {ds : List Char} (hne : ds ≠ [])
    (hdig : ∀ c ∈ ds, Char.isDigit c = true) :
    ∀ (b : List Char), (∀ c ∈ b, c ≠ '(') →
      stripAnnots (b ++ ' ' :: '(' :: (ds ++ annotTail)) = rtrimWs b := by
  intro b
  induction b with
  | nil =>
    intro _
    have hm : matchAnnotAt ([' '] ++ '(' :: (ds ++ annotTail)) = some [] :=
      matchAnnot_ws_annot (by intro x hx; simp at hx; subst hx; rfl) hne hdig
    have hm' : matchAnnotAt (' ' :: ('(' :: (ds ++ annotTail))) = some [] := by
      simpa using hm
    rw [List.nil_append, stripAnnots_cons_match hm', stripAnnots_nil]
    rfl
  | cons c cs ih =>
    intro hb
    by_cases hall : ∀ x ∈ c :: cs, pyWs x = true
    · have hm : matchAnnotAt (((c :: cs) ++ [' ']) ++ '(' :: (ds ++ annotTail)) = some [] := by
        refine matchAnnot_ws_annot ?_ hne hdig
        intro x hx
        rcases List.mem_append.mp hx with hmem | hmem
        · exact hall x hmem
        · simp at hmem; subst hmem; rfl
      have heq : ((c :: cs) ++ [' ']) ++ '(' :: (ds ++ annotTail) =
          c :: (cs ++ ' ' :: '(' :: (ds ++ annotTail)) := by simp
      rw [heq] at hm
      have heq2 : (c :: cs) ++ ' ' :: '(' :: (ds ++ annotTail) =
          c :: (cs ++ ' ' :: '(' :: (ds ++ annotTail)) := by simp
      rw [heq2, stripAnnots_cons_match hm, stripAnnots_nil]
      exact ((rtrim_nil_iff (c :: cs)).mpr hall).symm
    · have hdw : (c :: cs).dropWhile pyWs ≠ [] := by
        intro hdw
        exact hall (List.dropWhile_eq_nil_iff.mp hdw)
      rcases hd : (c :: cs).dropWhile pyWs with _ | ⟨d, t⟩
      · exact absurd hd hdw
      · have hdmem : d ∈ c :: cs :=
          mem_of_mem_dropWhile (p := pyWs) (by rw [hd]; exact List.mem_cons_self _ _)
        have hdne : d ≠ '(' := hb d hdmem
        have hm : matchAnnotAt ((c :: cs) ++ (' ' :: '(' :: (ds ++ annotTail))) = none :=
          matchAnnot_none_stuck _ hd hdne
        have heq : (c :: cs) ++ ' ' :: '(' :: (ds ++ annotTail) =
            c :: (cs ++ ' ' :: '(' :: (ds ++ annotTail)) := by simp
        rw [heq] at hm
        rw [heq, stripAnnots_cons_nomatch hm]
        rw [ih (fun x hx => hb x (List.mem_cons_of_mem c hx))]
        exact (rtrim_cons_not_all hall).symm

theorem dropWhile_rtrim_comm : ∀ l : List Char,
    (rtrimWs l).dropWhile pyWs = rtrimWs (l.dropWhile pyWs) := by
  intro l
  induction l with
  | nil => rfl
  | cons c cs ih =>
    rcases hr : rtrimWs cs with _ | ⟨y, ys⟩
    · have hcs : ∀ x ∈ cs, pyWs x = true := (rtrim_nil_iff cs).mp hr
      by_cases hc : pyWs c = true
      · have h1 : rtrimWs (c :: cs) = [] :=
          (rtrim_nil_iff _).mpr (fun x hx => by
            rcases List.mem_cons.mp hx with rfl | hm
            · exact hc
            · exact hcs x hm)
        have h2 : (c :: cs).dropWhile pyWs = [] :=
          List.dropWhile_eq_nil_iff.mpr (fun x hx => by
            rcases List.mem_cons.mp hx with rfl | hm
            · exact hc
            · exact hcs x hm)
        rw [h1, h2]
        rfl
      · have h1 : rtrimWs (c :: cs) = [c] := by
          simp only [rtrimWs]; rw [hr]; simp [hc]
        have h2 : (c :: cs).dropWhile pyWs = c :: cs :=
          List.dropWhile_cons_of_neg (by simpa using hc)
        rw [h1, h2, List.dropWhile_cons_of_neg (by simpa using hc)]
        exact h1.symm
    · have h1 : rtrimWs (c :: cs) = c :: rtrimWs cs := by
        simp only [rtrimWs]; rw [hr]
      by_cases hc : pyWs c = true
      · rw [h1, List.dropWhile_cons_of_pos hc, List.dropWhile_cons_of_pos hc]
        exact ih
      · rw [h1, List.dropWhile_cons_of_neg (by simpa using hc),
            List.dropWhile_cons_of_neg (by simpa using hc)]
        exact h1.symm

theorem rtrim_idem : ∀ l : List Char, rtrimWs (rtrimWs l) = rtrimWs l := by
  intro l
  induction l with
  | nil => rfl
  | cons c cs ih =>
    rcases hr : rtrimWs cs with _ | ⟨y, ys⟩
    · by_cases hc : pyWs c = true
      · have h1 : rtrimWs (c :: cs) = [] := by
          simp only [rtrimWs]; rw [hr]; simp [hc]
        rw [h1]
        rfl
      · have h1 : rtrimWs (c :: cs) = [c] := by
          simp only [rtrimWs]; rw [hr]; simp [hc]
        rw [h1]
        simp only [rtrimWs]
        simp [hc]
    · have h1 : rtrimWs (c :: cs) = c :: rtrimWs cs := by
        simp only [rtrimWs]; rw [hr]
      rw [hr] at ih
      rw [h1, hr]
      have h2 : rtrimWs (c :: y :: ys) =
          match rtrimWs (y :: ys) with
          | [] => if pyWs c = true then [] else [c]
          | r => c :: r := rfl
      rw [h2, ih]

theorem pyStrip_rtrim (l : List Char) : pyStripL (rtrimWs l) = pyStripL l := by
  unfold pyStripL
  rw [dropWhile_rtrim_comm, rtrim_idem]

/-- C4 counterexample: the claim says the explainer strips only a TRAILING
annotation before matching.  On `"immutable (1 instances detected) audit"`
the code's `re.sub` removes the annotation from the middle of the string and
matches the keyword `"immutable audit"`, while the claim's trailing-only
normalization leaves the string unchanged and yields the default explanation —
the two disagree at this concrete input. -/
theorem explain_not_trailing_only_cex :
    explain "immutable (1 instances detected) audit" =
      "Governance evasion bypasses security policies. Deploy blockchain-based audit trails and policy enforcement verification." ∧
    specExplain "immutable (1 instances detected) audit" = DEFAULT_EXPLANATION ∧
    explain "immutable (1 instances detected) audit" ≠
      specExplain "immutable (1 instances detected) audit" := by
  refine ⟨by decide, by decide, by decide⟩

/-- C4 amended: the explainer removes every occurrence of the
whitespace-plus-parenthetical occurrence-count annotation anywhere in the
string (not only a trailing one), trims surrounding whitespace, lower-cases,
and returns the explanation of the first table keyword (in table definition
order) that is a substring of the normalized text, with the fixed default when
none matches.  Consequently, for every recommendation made of an
annotation-free base followed by a trailing `" (N instances detected)"`
annotation, the explanation is exactly that of the base — in particular
`"reasoning path validation (3 instances detected)"` maps to the same
explanation as `"reasoning path validation"`. -/
theorem explain_strips_annot :
    (∀ (base : String) (ds : List Char), ds ≠ [] →
      (∀ c ∈ ds, Char.isDigit c = true) →
      (∀ c ∈ base.data, c ≠ '(') →
      explain (base ++ " (" ++ String.mk ds ++ " instances detected)") = explain base) ∧
    explain "reasoning path validation (3 instances detected)" =
      explain "reasoning path validation" := by
  constructor
  · intro base ds hne hdig hb
    unfold explain normalizeRec
    have hdata : (base ++ " (" ++ String.mk ds ++ " instances detected)").data =
        base.data ++ ' ' :: '(' :: (ds ++ annotTail) := by
      simp [String.data_append, annotTail]
    rw [hdata]
    rw [stripAnnots_base_annot hne hdig base.data hb]
    rw [pyStrip_rtrim]
    rw [stripAnnots_no_paren base.data hb]
  · decide

/-- C4 witness: the amended stripping statement at the concrete base
`"memory integrity"` with count digits `"2"`. -/
theorem explain_strips_annot_witness :
    explain ("memory integrity" ++ " (" ++ String.mk ['2'] ++ " instances detected)") =
      explain "memory integrity" :=
  explain_strips_annot.1 "memory integrity" ['2'] (by decide) (by decide) (by decide)
